import Mathlib

/-!
Shallow embedding of the Concordium Rust SDK v2 query client
(`src/v2/mod.rs`) and the submit-then-poll loop of
`examples/update-exchange-rate.rs`.

Machine bytes are modelled as `Nat` values (each `< 256` where it matters);
byte strings as `List Nat`.  Fallible Rust code returning `Result` is
modelled with `Except`.  gRPC wire types (the `generated` module, produced
by prost from the protobuf schema, in which every message field is
optional) are modelled in the `Generated` namespace with `Option` fields.
-/

namespace ConcordiumV2

/-- Status codes of `tonic::Status` used by the client code. -/
inductive StatusCode : Type where
  | unknown : StatusCode
  | invalidArgument : StatusCode
deriving DecidableEq, Repr

/-- Model of `tonic::Status`: a gRPC status code plus a message. -/
structure Status : Type where
  code : StatusCode
  message : String
deriving DecidableEq, Repr

def missingMetadataMsg : String := "Response does not include the expected metadata."

def missingFieldMsg : String := "missing field in response"

/-- Model of `tonic::Status::unknown(missingMetadataMsg)` as constructed in
`extract_metadata`. -/
def missingMetadataStatus : Status :=
  { code := StatusCode.unknown, message := missingMetadataMsg }

/-- Model of `tonic::Status::invalid_argument("missing field in response")`
as constructed by the `Require` trait implementation for `Option`. -/
def missingFieldStatus : Status :=
  { code := StatusCode.invalidArgument, message := missingFieldMsg }

/-- Model of `endpoints::RPCError` (the error type of `extract_metadata`):
only the `CallError` variant is constructed by the code under study. -/
inductive RPCError : Type where
  | CallError : Status → RPCError
deriving DecidableEq, Repr

/-- Modelled from the spec: `endpoints::QueryError`, the error type of the
client query methods (the `endpoints` module is not part of the given
source).  Per the spec's error taxonomy it distinguishes call/transport
errors (wrapping `RPCError`) from decode errors (a required sub-field
absent or a value failing domain validation). -/
inductive QueryError : Type where
  | RPC : RPCError → QueryError
  | Decode : Status → QueryError
deriving DecidableEq, Repr

/-- A 32-byte block hash (`hashes::BlockHash`); the 32-byte length is an
invariant of the Rust type, carried here as a raw byte list. -/
abbrev BlockHash : Type := List Nat

/-- An account address (`concordium_contracts_common::AccountAddress`),
a fixed-size byte value, carried here as a raw byte list. -/
abbrev AccountAddress : Type := List Nat

/-- A module reference (`smart_contracts::ModuleRef`), a 32-byte hash. -/
abbrev ModuleRef : Type := List Nat

/-- Modelled from the spec: `crypto_common::to_bytes` on a fixed-size byte
value (account address, credential registration id) serialises it to
exactly its raw bytes. -/
def to_bytes (b : List Nat) : List Nat := b

/-- `QueryResponse<A>` from `src/v2/mod.rs`: a decoded value paired with
the block hash the node reports the answer is relative to. -/
structure QueryResponse (A : Type) : Type where
  block_hash : BlockHash
  response : A

/-- `BlockIdentifier` from `src/v2/mod.rs`. -/
inductive BlockIdentifier : Type where
  | Best : BlockIdentifier
  | LastFinal : BlockIdentifier
  | Given : BlockHash → BlockIdentifier

/-- `AccountIdentifier` from `src/v2/mod.rs`.  The credential registration
id is a fixed-size curve-point encoding, modelled as its byte list; the
account index is a `u64`, modelled as `Nat`. -/
inductive AccountIdentifier : Type where
  | Address : AccountAddress → AccountIdentifier
  | CredId : List Nat → AccountIdentifier
  | Index : Nat → AccountIdentifier

/-- Domain `FinalizedBlockInfo` from `src/v2/mod.rs`. -/
structure FinalizedBlockInfo : Type where
  block_hash : BlockHash
  height : Nat
deriving DecidableEq, Repr

namespace Generated

/-- Wire message `generated::BlockHash { value: Vec<u8> }`. -/
structure BlockHash : Type where
  value : List Nat
deriving DecidableEq, Repr

/-- Wire message `generated::AccountAddress { value: Vec<u8> }`. -/
structure AccountAddress : Type where
  value : List Nat
deriving DecidableEq, Repr

/-- Wire message `generated::ModuleRef { value: Vec<u8> }`. -/
structure ModuleRef : Type where
  value : List Nat
deriving DecidableEq, Repr

/-- Wire message `generated::CredentialRegistrationId { value: Vec<u8> }`. -/
structure CredentialRegistrationId : Type where
  value : List Nat
deriving DecidableEq, Repr

/-- Wire message `generated::AbsoluteBlockHeight { value: u64 }`. -/
structure AbsoluteBlockHeight : Type where
  value : Nat
deriving DecidableEq, Repr

/-- The oneof `generated::block_hash_input::BlockHashInput`. -/
inductive BlockHashInputInner : Type where
  | Best : BlockHashInputInner
  | LastFinal : BlockHashInputInner
  | Given : BlockHash → BlockHashInputInner
deriving DecidableEq, Repr

/-- Wire message `generated::BlockHashInput`; in proto3 the oneof field is
optional. -/
structure BlockHashInput : Type where
  block_hash_input : Option BlockHashInputInner
deriving DecidableEq, Repr

/-- The oneof `generated::account_info_request::AccountIdentifier`. -/
inductive AccountIdentifierInput : Type where
  | Address : AccountAddress → AccountIdentifierInput
  | CredId : CredentialRegistrationId → AccountIdentifierInput
  | AccountIndex : Nat → AccountIdentifierInput
deriving DecidableEq, Repr

/-- Wire message `generated::AccountInfoRequest`; both fields optional. -/
structure AccountInfoRequest : Type where
  block_hash : Option BlockHashInput
  account_identifier : Option AccountIdentifierInput
deriving DecidableEq, Repr

/-- Wire message `generated::AncestorsRequest`. -/
structure AncestorsRequest : Type where
  block_hash : Option BlockHashInput
  amount : Nat
deriving DecidableEq, Repr

/-- Wire message `generated::FinalizedBlockInfo`, the per-item payload of
the finalized-blocks stream; both fields optional (proto3). -/
structure FinalizedBlockInfo : Type where
  hash : Option BlockHash
  height : Option AbsoluteBlockHeight
deriving DecidableEq, Repr

end Generated

/-! ### Identifier conversions (`From` impls in `src/v2/mod.rs`) -/

/-- `impl From<&BlockIdentifier> for generated::BlockHashInput`: each
variant is mapped to its wire marker; `Given(h)` copies `h.as_ref().to_vec()`,
the hash's raw 32 bytes, without validation; the result is always wrapped
in `Some`. -/
def toBlockHashInput : BlockIdentifier → Generated.BlockHashInput
  | BlockIdentifier.Best =>
      { block_hash_input := some Generated.BlockHashInputInner.Best }
  | BlockIdentifier.LastFinal =>
      { block_hash_input := some Generated.BlockHashInputInner.LastFinal }
  | BlockIdentifier.Given h =>
      { block_hash_input := some (Generated.BlockHashInputInner.Given { value := h }) }

/-- `impl From<&AccountIdentifier> for generated::account_info_request::AccountIdentifier`. -/
def toAccountIdentifierInput : AccountIdentifier → Generated.AccountIdentifierInput
  | AccountIdentifier.Address addr =>
      Generated.AccountIdentifierInput.Address { value := to_bytes addr }
  | AccountIdentifier.CredId credid =>
      Generated.AccountIdentifierInput.CredId { value := to_bytes credid }
  | AccountIdentifier.Index index =>
      Generated.AccountIdentifierInput.AccountIndex index

/-- `impl IntoRequest<generated::AccountInfoRequest> for (&AccountIdentifier, &BlockIdentifier)`:
both optional fields are always populated. -/
def toAccountInfoRequest (ai : AccountIdentifier) (bi : BlockIdentifier) :
    Generated.AccountInfoRequest :=
  { block_hash := some (toBlockHashInput bi),
    account_identifier := some (toAccountIdentifierInput ai) }

/-- `impl IntoRequest<generated::AncestorsRequest> for (&BlockIdentifier, u64)`. -/
def toAncestorsRequest (bi : BlockIdentifier) (amount : Nat) :
    Generated.AncestorsRequest :=
  { block_hash := some (toBlockHashInput bi), amount := amount }

/-! ### Hex decoding (the `hex` crate, as used by `extract_metadata`)

`hex::decode_to_slice` decodes ASCII hex bytes pairwise into an output
buffer, writing bytes left to right and stopping (with an error) at the
first invalid digit; bytes after the failure point keep their initial
value, which in `extract_metadata` is zero. -/

/-- Value of one ASCII hex digit byte (the `hex` crate's `val` table):
`0`..`9` are 48..57, `a`..`f` are 97..102, `A`..`F` are 65..70. -/
def hexVal? (b : Nat) : Option Nat :=
  if 48 ≤ b ∧ b ≤ 57 then some (b - 48)
  else if 97 ≤ b ∧ b ≤ 102 then some (b - 87)
  else if 65 ≤ b ∧ b ≤ 70 then some (b - 55)
  else none

/-- Pure pairwise hex decoding: succeeds exactly when the input has even
length and every byte is a hex digit. -/
def decodePairs : List Nat → Option (List Nat)
  | [] => some []
  | [_] => none
  | hi :: lo :: rest =>
    match hexVal? hi, hexVal? lo with
    | some h, some l => Option.map (fun r => (h * 16 + l) :: r) (decodePairs rest)
    | _, _ => none

/-- The output buffer of `hex::decode_to_slice` on an even-length input,
started from an all-zero buffer: the decoded prefix up to the first
invalid pair, then zeros (the error the crate reports alongside is what
`extract_metadata` discards). -/
def decodeToSliceBuf : List Nat → List Nat
  | [] => []
  | [_] => []
  | hi :: lo :: rest =>
    match hexVal? hi, hexVal? lo with
    | some h, some l => (h * 16 + l) :: decodeToSliceBuf rest
    | _, _ => List.replicate ((hi :: lo :: rest).length / 2) 0

/-- Modelled from the spec: lowercase hex encoding of a byte list (the
textual form of `Hash32`); re-encoding used for the round-trip property. -/
def toHexDigitLower (v : Nat) : Nat :=
  if v < 10 then v + 48 else v + 87

/-- Modelled from the spec: hex encoding, two lowercase digits per byte. -/
def encodeHex : List Nat → List Nat
  | [] => []
  | b :: rest => toHexDigitLower (b / 16) :: toHexDigitLower (b % 16) :: encodeHex rest

/-- ASCII lowercasing of one byte. -/
def asciiToLower (b : Nat) : Nat :=
  if 65 ≤ b ∧ b ≤ 90 then b + 32 else b

/-- A byte string is a valid textual `Hash32`: exactly 64 bytes, each an
ASCII hex digit. -/
def isValidHex64 (s : List Nat) : Prop :=
  s.length = 64 ∧ ∀ b ∈ s, (hexVal? b).isSome = true

instance (s : List Nat) : Decidable (isValidHex64 s) := by
  unfold isValidHex64; infer_instance

/-- Decoding a textual `Hash32` to its 32 bytes: the fallible counterpart
of what `extract_metadata` attempts with `hex::decode_to_slice` into a
32-byte buffer (which requires the input length to be exactly 64). -/
def decodeHex32 (s : List Nat) : Option (List Nat) :=
  if s.length = 64 then decodePairs s else none

/-! ### Metadata extraction (`extract_metadata` in `src/v2/mod.rs`) -/

/-- A `tonic::Response<T>`, projected to what `extract_metadata` and the
client methods consume: the raw bytes of the "blockhash" metadata header
(if present) and the response body. -/
structure Response (α : Type) : Type where
  metadata : Option (List Nat)
  body : α

/-- `extract_metadata` from `src/v2/mod.rs`, faithful to the source
including its bug: when the header is present with length 64, the source
runs `hex::decode_to_slice` into a zero-initialised 32-byte buffer, and
on a decode error merely constructs a `tonic::Status` without returning
it, then returns `Ok` on the buffer regardless; absent header or a length
other than 64 produce a `CallError`. -/
def extract_metadata {α : Type} (r : Response α) : Except RPCError BlockHash :=
  match r.metadata with
  | some bytes =>
    if bytes.length = 64 then
      Except.ok (decodeToSliceBuf bytes)
    else
      Except.error (RPCError.CallError missingMetadataStatus)
  | none => Except.error (RPCError.CallError missingMetadataStatus)

/-! ### Per-item decoders and the `Require` helper -/

/-- `Require::require_owned` for `Option`: a missing proto3 field becomes
`tonic::Status::invalid_argument("missing field in response")`. -/
def require_owned {A : Type} : Option A → Except Status A
  | some v => Except.ok v
  | none => Except.error missingFieldStatus

def invalidAddressMsg : String := "invalid account address"

def invalidHashMsg : String := "invalid hash length"

/-- Modelled from the spec: `TryFrom<generated::AccountAddress>` for
`AccountAddress` — domain validation of the address bytes (a fixed
32-byte value; malformed address bytes fail, never silently defaulted). -/
def accountAddressDecode (a : Generated.AccountAddress) : Except Status AccountAddress :=
  if a.value.length = 32 then Except.ok a.value
  else Except.error { code := StatusCode.invalidArgument, message := invalidAddressMsg }

/-- Modelled from the spec: `TryFrom<generated::ModuleRef>` for
`ModuleRef` — a `Hash32` value, requiring exactly 32 bytes. -/
def moduleRefDecode (m : Generated.ModuleRef) : Except Status ModuleRef :=
  if m.value.length = 32 then Except.ok m.value
  else Except.error { code := StatusCode.invalidArgument, message := invalidHashMsg }

/-- Modelled from the spec: `TryFrom<generated::BlockHash>` for
`hashes::BlockHash` — a `Hash32` value, requiring exactly 32 bytes. -/
def blockHashDecode (b : Generated.BlockHash) : Except Status BlockHash :=
  if b.value.length = 32 then Except.ok b.value
  else Except.error { code := StatusCode.invalidArgument, message := invalidHashMsg }

/-! ### Query client methods (`impl Client` in `src/v2/mod.rs`)

A streaming gRPC response body is modelled as the list of items the
transport yields (`Result<WireItem, tonic::Status>` each); the combinator
`.map(|x| x.and_then(TryFrom::try_from))` applied to it in each streaming
method is `decodeStream`. -/

/-- The stream mapping `response.into_inner().map(|x| x.and_then(TryFrom::try_from))`
shared by `get_account_list`, `get_module_list` and `get_ancestors`: each
transported item is decoded independently. -/
def decodeStream {W A : Type} (decode : W → Except Status A)
    (items : List (Except Status W)) : List (Except Status A) :=
  items.map (fun x => Except.bind x decode)

/-- `Client::get_account_list`: extract the envelope block hash from this
call's response headers, then lazily decode each streamed address. -/
def get_account_list (r : Response (List (Except Status Generated.AccountAddress))) :
    Except QueryError (QueryResponse (List (Except Status AccountAddress))) :=
  match extract_metadata r with
  | Except.error e => Except.error (QueryError.RPC e)
  | Except.ok block_hash =>
      Except.ok { block_hash := block_hash,
                  response := decodeStream accountAddressDecode r.body }

/-- `Client::get_module_list`: same shape as `get_account_list`. -/
def get_module_list (r : Response (List (Except Status Generated.ModuleRef))) :
    Except QueryError (QueryResponse (List (Except Status ModuleRef))) :=
  match extract_metadata r with
  | Except.error e => Except.error (QueryError.RPC e)
  | Except.ok block_hash =>
      Except.ok { block_hash := block_hash,
                  response := decodeStream moduleRefDecode r.body }

/-- `Client::get_ancestors`: same shape, streaming block hashes (the
`amount` argument only shapes the request, see `toAncestorsRequest`). -/
def get_ancestors (r : Response (List (Except Status Generated.BlockHash))) :
    Except QueryError (QueryResponse (List (Except Status BlockHash))) :=
  match extract_metadata r with
  | Except.error e => Except.error (QueryError.RPC e)
  | Except.ok block_hash =>
      Except.ok { block_hash := block_hash,
                  response := decodeStream blockHashDecode r.body }

/-- `Client::get_account_info`: a single-value query; the wire message
`generated::AccountInfo` and the domain conversion `AccountInfo::try_from`
are not part of the given source, so the wire type and the decoder are
parameters (any total-but-fallible decoder, per the spec).  The envelope
hash is extracted from the headers first, as in the source. -/
def get_account_info {W AccountInfo : Type}
    (decode : W → Except Status AccountInfo)
    (r : Response W) :
    Except QueryError (QueryResponse AccountInfo) :=
  match extract_metadata r with
  | Except.error e => Except.error (QueryError.RPC e)
  | Except.ok block_hash =>
      match decode r.body with
      | Except.error e => Except.error (QueryError.Decode e)
      | Except.ok response => Except.ok { block_hash := block_hash, response := response }

/-- Per-item decoding of the finalized-blocks stream, from the closure in
`Client::get_finalized_blocks`: the hash sub-field is required and
converted, then the height sub-field is required; a transport error is
passed through. -/
def decodeFinalizedBlockItem :
    Except Status Generated.FinalizedBlockInfo → Except Status FinalizedBlockInfo
  | Except.error e => Except.error e
  | Except.ok v =>
    match Except.bind (require_owned v.hash) blockHashDecode with
    | Except.error e => Except.error e
    | Except.ok block_hash =>
      match require_owned v.height with
      | Except.error e => Except.error e
      | Except.ok h => Except.ok { block_hash := block_hash, height := h.value }

/-- `Client::get_finalized_blocks`: returns the bare decoded stream, with
no `QueryResponse` envelope and no metadata extraction. -/
def get_finalized_blocks
    (items : List (Except Status Generated.FinalizedBlockInfo)) :
    List (Except Status FinalizedBlockInfo) :=
  items.map decodeFinalizedBlockItem

/-! ### The submit-then-poll loop (`examples/update-exchange-rate.rs`)

`TransactionStatus` carries, for `Committed` and `Finalized`, the keys of
the block map the node reports (the loop only reads the keys).  The loop
body is modelled on a list of poll results: each entry is what one
`get_block_item_status` call produced.  `none` means the supplied list of
polls was exhausted without the loop having terminated (the real loop
would keep polling). -/

/-- `TransactionStatus` as consumed by the example's poll loop. -/
inductive TransactionStatus : Type where
  | Received : TransactionStatus
  | Committed : List BlockHash → TransactionStatus
  | Finalized : List BlockHash → TransactionStatus

/-- Outcome of the poll loop: success with the finalized block set, or
the error of a failed status query. -/
inductive PollOutcome (E : Type) : Type where
  | success : List BlockHash → PollOutcome E
  | failure : E → PollOutcome E

/-- The example's poll loop: a failed status query aborts with its error
(`context(...)?`), `Finalized` breaks with success, `Committed` and
`Received` print and continue. -/
def pollLoop {E : Type} : List (Except E TransactionStatus) → Option (PollOutcome E)
  | [] => none
  | p :: rest =>
    match p with
    | Except.error e => some (PollOutcome.failure e)
    | Except.ok (TransactionStatus.Finalized bs) => some (PollOutcome.success bs)
    | Except.ok (TransactionStatus.Committed _) => pollLoop rest
    | Except.ok TransactionStatus.Received => pollLoop rest

/-- A poll result on which the loop continues polling: a successful query
returning `Received` or `Committed`. -/
def continues {E : Type} : Except E TransactionStatus → Bool
  | Except.ok TransactionStatus.Received => true
  | Except.ok (TransactionStatus.Committed _) => true
  | _ => false

/-! ### Helper lemmas on hex decoding -/

/-- A hex digit's decoded value is below 16 and re-encodes (in lowercase)
to the lowercased original digit byte. -/
theorem hexVal_eq_some {b v : Nat} (h : hexVal? b = some v) :
    v < 16 ∧ toHexDigitLower v = asciiToLower b := by
  unfold hexVal? at h
  split_ifs at h with h1 h2 h3 <;>
    (injection h with hv; subst hv;
     refine ⟨by omega, ?_⟩;
     unfold toHexDigitLower asciiToLower;
     split_ifs <;> omega)

/-- Successful pure decoding determines the `decode_to_slice` buffer. -/
theorem decodeToSliceBuf_eq : ∀ {s h : List Nat}, decodePairs s = some h →
    decodeToSliceBuf s = h := by
  intro s
  induction s using decodePairs.induct with
  | case1 =>
    intro h hdec
    simp only [decodePairs, Option.some.injEq] at hdec
    subst hdec
    rfl
  | case2 a =>
    intro h hdec
    simp [decodePairs] at hdec
  | case3 hi lo rest hv lv hlo hhi ih =>
    intro h hdec
    simp only [decodePairs, hhi, hlo] at hdec
    rw [Option.map_eq_some'] at hdec
    obtain ⟨r, hr, hcons⟩ := hdec
    simp only [decodeToSliceBuf, hhi, hlo]
    rw [ih hr]
    exact hcons
  | case4 hi lo rest hcond =>
    intro h hdec
    cases hhi : hexVal? hi with
    | none =>
      cases hlo : hexVal? lo with
      | none => simp [decodePairs, hhi, hlo] at hdec
      | some lv => simp [decodePairs, hhi, hlo] at hdec
    | some hv =>
      cases hlo : hexVal? lo with
      | none => simp [decodePairs, hhi, hlo] at hdec
      | some lv => exact (hcond hv lv hhi hlo).elim

/-- On an even-length all-hex-digit input, pure decoding succeeds, halves
the length, and lowercase re-encoding recovers the lowercased input. -/
theorem decodePairs_valid : ∀ (s : List Nat), s.length % 2 = 0 →
    (∀ b ∈ s, (hexVal? b).isSome = true) →
    ∃ h, decodePairs s = some h ∧ 2 * h.length = s.length ∧
      encodeHex h = s.map asciiToLower := by
  intro s
  induction s using decodePairs.induct with
  | case1 =>
    intro _ _
    exact ⟨[], rfl, rfl, rfl⟩
  | case2 a =>
    intro hlen _
    simp at hlen
  | case3 hi lo rest hv lv hlo hhi ih =>
    intro hlen hhex
    obtain ⟨r, hr, hrlen, hrenc⟩ := ih (by simp at hlen ⊢; omega)
      (fun b hb => hhex b (by simp [hb]))
    refine ⟨(hv * 16 + lv) :: r, ?_, ?_, ?_⟩
    · simp [decodePairs, hhi, hlo, hr]
    · simp only [List.length_cons]
      omega
    · obtain ⟨hvlt, hvenc⟩ := hexVal_eq_some hhi
      obtain ⟨lvlt, lvenc⟩ := hexVal_eq_some hlo
      have hdiv : (hv * 16 + lv) / 16 = hv := by omega
      have hmod : (hv * 16 + lv) % 16 = lv := by omega
      simp only [encodeHex, List.map_cons]
      rw [hdiv, hmod, hvenc, lvenc, hrenc]
  | case4 hi lo rest hcond =>
    intro _ hhex
    obtain ⟨hv, hhi⟩ := Option.isSome_iff_exists.mp (hhex hi (by simp))
    obtain ⟨lv, hlo⟩ := Option.isSome_iff_exists.mp (hhex lo (by simp))
    exact (hcond hv lv hhi hlo).elim

/-- A single non-hex-digit byte anywhere makes pure decoding fail. -/
theorem decodePairs_none_of_bad : ∀ {s : List Nat} {b : Nat}, b ∈ s →
    hexVal? b = none → decodePairs s = none := by
  intro s
  induction s using decodePairs.induct with
  | case1 =>
    intro b hb _
    simp at hb
  | case2 a =>
    intro b _ _
    rfl
  | case3 hi lo rest hv lv hlo hhi ih =>
    intro b hb hbad
    rcases List.mem_cons.mp hb with rfl | hb2
    · rw [hbad] at hhi
      cases hhi
    · rcases List.mem_cons.mp hb2 with rfl | hbrest
      · rw [hbad] at hlo
        cases hlo
      · have hrest := ih hbrest hbad
        simp [decodePairs, hhi, hlo, hrest]
  | case4 hi lo rest hcond =>
    intro b hb hbad
    cases hhi : hexVal? hi with
    | none =>
      cases hlo : hexVal? lo with
      | none => simp [decodePairs, hhi, hlo]
      | some lv => simp [decodePairs, hhi, hlo]
    | some hv =>
      cases hlo : hexVal? lo with
      | none => simp [decodePairs, hhi, hlo]
      | some lv => exact (hcond hv lv hhi hlo).elim

/-- Metadata extraction only reads the "blockhash" header, never the body. -/
theorem extract_metadata_congr {α β : Type} (r1 : Response α) (r2 : Response β)
    (h : r1.metadata = r2.metadata) : extract_metadata r1 = extract_metadata r2 := by
  unfold extract_metadata
  rw [h]

/-! ### Claim theorems -/

/-- Claim C1 (code bug): for a present "blockhash" header of exactly 64
bytes that is not valid hex (here 64 times the byte 122, ASCII `z`), the
spec requires `extract_metadata` to surface a decode/call failure, but
the source constructs the error status and discards it, returning `Ok`
with the untouched zero-filled 32-byte buffer. -/
theorem extract_metadata_swallows_bad_hex :
    extract_metadata ({ metadata := some (List.replicate 64 122), body := () } : Response Unit) =
      Except.ok (List.replicate 32 0) := rfl

/-- Claim C2: a missing "blockhash" header fails with a call error; a
present header whose length is not 64 fails with the same call error; a
present 64-byte valid-hex header yields the decoded 32-byte hash. -/
theorem extract_metadata_contract {α : Type} (r : Response α) :
    (r.metadata = none →
      extract_metadata r = Except.error (RPCError.CallError missingMetadataStatus)) ∧
    (∀ s, r.metadata = some s → s.length ≠ 64 →
      extract_metadata r = Except.error (RPCError.CallError missingMetadataStatus)) ∧
    (∀ s h, r.metadata = some s → s.length = 64 → decodePairs s = some h →
      extract_metadata r = Except.ok h) := by
  refine ⟨?_, ?_, ?_⟩
  · intro hn
    unfold extract_metadata
    rw [hn]
  · intro s hs hlen
    unfold extract_metadata
    rw [hs]
    simp [hlen]
  · intro s h hs hlen hdec
    unfold extract_metadata
    rw [hs]
    simp [hlen, decodeToSliceBuf_eq hdec]

/-- Witness for C2: the three branches at concrete responses — absent
header, a 2-byte header, and the 64-byte header of all ASCII `0`s. -/
theorem extract_metadata_contract_witness :
    extract_metadata ({ metadata := none, body := () } : Response Unit) =
      Except.error (RPCError.CallError missingMetadataStatus) ∧
    extract_metadata ({ metadata := some [48, 48], body := () } : Response Unit) =
      Except.error (RPCError.CallError missingMetadataStatus) ∧
    extract_metadata ({ metadata := some (List.replicate 64 48), body := () } : Response Unit) =
      Except.ok (List.replicate 32 0) :=
  ⟨(extract_metadata_contract _).1 rfl,
   (extract_metadata_contract _).2.1 [48, 48] rfl (by decide),
   (extract_metadata_contract _).2.2 (List.replicate 64 48) (List.replicate 32 0) rfl
     (by decide) (by decide)⟩

/-- Claim C8: decoding a valid 64-hex-byte string to its 32 bytes and
re-encoding yields the original string lowercased (case-insensitive round
trip); decoding fails on any input that is not 64 hex digits. -/
theorem hex_roundtrip (s : List Nat) :
    (isValidHex64 s →
      (decodeHex32 s).isSome = true ∧
      ((decodeHex32 s).getD []).length = 32 ∧
      encodeHex ((decodeHex32 s).getD []) = s.map asciiToLower) ∧
    (¬ isValidHex64 s → decodeHex32 s = none) := by
  constructor
  · rintro ⟨hlen, hhex⟩
    obtain ⟨h, hdec, hhlen, henc⟩ := decodePairs_valid s (by omega) hhex
    unfold decodeHex32
    rw [if_pos hlen, hdec]
    exact ⟨rfl, by simp; omega, henc⟩
  · intro hnv
    unfold decodeHex32
    by_cases hl : s.length = 64
    · rw [if_pos hl]
      have hbad : ¬ ∀ b ∈ s, (hexVal? b).isSome = true := fun hall => hnv ⟨hl, hall⟩
      push_neg at hbad
      obtain ⟨b, hb, hbadb⟩ := hbad
      refine decodePairs_none_of_bad hb ?_
      cases hx : hexVal? b
      · rfl
      · rw [hx] at hbadb
        simp at hbadb
    · rw [if_neg hl]

/-- Witness for C8: the all-`a` string (64 times byte 97) decodes to 32
bytes of 170 and round-trips; the empty string fails to decode. -/
theorem hex_roundtrip_witness :
    ((decodeHex32 (List.replicate 64 97)).isSome = true ∧
      ((decodeHex32 (List.replicate 64 97)).getD []).length = 32 ∧
      encodeHex ((decodeHex32 (List.replicate 64 97)).getD []) =
        (List.replicate 64 97).map asciiToLower) ∧
    decodeHex32 [] = none :=
  ⟨(hex_roundtrip (List.replicate 64 97)).1 (by decide),
   (hex_roundtrip []).2 (by decide)⟩

/-- Claim C9: `extract_metadata` is parametric in the response body — any
two responses of any body types with equal "blockhash" metadata entries
(including both absent) extract equal results. -/
theorem extract_metadata_parametric {α β : Type} (r1 : Response α) (r2 : Response β)
    (h : r1.metadata = r2.metadata) : extract_metadata r1 = extract_metadata r2 :=
  extract_metadata_congr r1 r2 h

/-- Witness for C9: two responses with the same header but bodies of
different types extract the same result. -/
theorem extract_metadata_parametric_witness :
    extract_metadata { metadata := some (List.replicate 64 48), body := (0 : Nat) } =
      extract_metadata { metadata := some (List.replicate 64 48), body := true } :=
  extract_metadata_parametric _ _ rfl

/-! ### Poll loop lemmas -/

/-- The loop keeps polling over a `Received` or `Committed` poll result. -/
theorem pollLoop_cont {E : Type} (p : Except E TransactionStatus)
    (rest : List (Except E TransactionStatus)) (hc : continues p = true) :
    pollLoop (p :: rest) = pollLoop rest := by
  cases p with
  | error e => simp [continues] at hc
  | ok st => cases st <;> simp [pollLoop, continues] at hc ⊢

/-- The loop reports success with blocks `bs` exactly when the poll
sequence is some all-continuing prelude followed by an observation of
`Finalized bs`. -/
theorem pollLoop_success_iff {E : Type} (polls : List (Except E TransactionStatus))
    (bs : List BlockHash) :
    pollLoop polls = some (PollOutcome.success bs) ↔
      ∃ pre rest, polls = pre ++ Except.ok (TransactionStatus.Finalized bs) :: rest ∧
        ∀ x ∈ pre, continues x = true := by
  constructor
  · intro h
    induction polls with
    | nil => cases h
    | cons p rest ih =>
      cases p with
      | error e =>
        rw [show pollLoop (Except.error e :: rest) = some (PollOutcome.failure e) from rfl] at h
        injection h with h2
        cases h2
      | ok st =>
        cases st with
        | Received =>
          have hstep : pollLoop (Except.ok TransactionStatus.Received :: rest) =
              pollLoop rest :=
            pollLoop_cont (Except.ok TransactionStatus.Received) rest rfl
          obtain ⟨pre, rest2, heq, hcont⟩ := ih (hstep ▸ h)
          refine ⟨Except.ok TransactionStatus.Received :: pre, rest2, by rw [heq]; rfl, ?_⟩
          intro x hx
          rcases List.mem_cons.mp hx with rfl | hx2
          · rfl
          · exact hcont x hx2
        | Committed cbs =>
          have hstep : pollLoop (Except.ok (TransactionStatus.Committed cbs) :: rest) =
              pollLoop rest :=
            pollLoop_cont (Except.ok (TransactionStatus.Committed cbs)) rest rfl
          obtain ⟨pre, rest2, heq, hcont⟩ := ih (hstep ▸ h)
          refine ⟨Except.ok (TransactionStatus.Committed cbs) :: pre, rest2,
            by rw [heq]; rfl, ?_⟩
          intro x hx
          rcases List.mem_cons.mp hx with rfl | hx2
          · rfl
          · exact hcont x hx2
        | Finalized bs2 =>
          rw [show pollLoop (Except.ok (TransactionStatus.Finalized bs2) :: rest) =
            some (PollOutcome.success bs2) from rfl] at h
          injection h with h2
          injection h2 with h3
          exact ⟨[], rest, by simp [h3], by simp⟩
  · rintro ⟨pre, rest, rfl, hcont⟩
    induction pre with
    | nil => rfl
    | cons q pre ih =>
      rw [List.cons_append, pollLoop_cont q _ (hcont q (by simp))]
      exact ih (fun x hx => hcont x (by simp [hx]))

/-- The loop aborts with error `e` exactly when the poll sequence is some
all-continuing prelude followed by a failed status query returning `e`. -/
theorem pollLoop_failure_iff {E : Type} (polls : List (Except E TransactionStatus)) (e : E) :
    pollLoop polls = some (PollOutcome.failure e) ↔
      ∃ pre rest, polls = pre ++ Except.error e :: rest ∧
        ∀ x ∈ pre, continues x = true := by
  constructor
  · intro h
    induction polls with
    | nil => cases h
    | cons p rest ih =>
      cases p with
      | error e2 =>
        rw [show pollLoop (Except.error e2 :: rest) = some (PollOutcome.failure e2) from rfl] at h
        injection h with h2
        injection h2 with h3
        exact ⟨[], rest, by simp [h3], by simp⟩
      | ok st =>
        cases st with
        | Received =>
          have hstep : pollLoop (Except.ok TransactionStatus.Received :: rest) =
              pollLoop rest :=
            pollLoop_cont (Except.ok TransactionStatus.Received) rest rfl
          obtain ⟨pre, rest2, heq, hcont⟩ := ih (hstep ▸ h)
          refine ⟨Except.ok TransactionStatus.Received :: pre, rest2, by rw [heq]; rfl, ?_⟩
          intro x hx
          rcases List.mem_cons.mp hx with rfl | hx2
          · rfl
          · exact hcont x hx2
        | Committed cbs =>
          have hstep : pollLoop (Except.ok (TransactionStatus.Committed cbs) :: rest) =
              pollLoop rest :=
            pollLoop_cont (Except.ok (TransactionStatus.Committed cbs)) rest rfl
          obtain ⟨pre, rest2, heq, hcont⟩ := ih (hstep ▸ h)
          refine ⟨Except.ok (TransactionStatus.Committed cbs) :: pre, rest2,
            by rw [heq]; rfl, ?_⟩
          intro x hx
          rcases List.mem_cons.mp hx with rfl | hx2
          · rfl
          · exact hcont x hx2
        | Finalized bs2 =>
          rw [show pollLoop (Except.ok (TransactionStatus.Finalized bs2) :: rest) =
            some (PollOutcome.success bs2) from rfl] at h
          injection h with h2
          cases h2
  · rintro ⟨pre, rest, rfl, hcont⟩
    induction pre with
    | nil => rfl
    | cons q pre ih =>
      rw [List.cons_append, pollLoop_cont q _ (hcont q (by simp))]
      exact ih (fun x hx => hcont x (by simp [hx]))

/-- Claim C3: the poll loop reports success exactly when a poll observes
`Finalized` after only `Received`/`Committed` observations (so it never
terminates successfully on `Received` or `Committed` and never continues
past a `Finalized`), and it aborts surfacing the error exactly when a
status query fails after only `Received`/`Committed` observations. -/
theorem pollLoop_characterization {E : Type} (polls : List (Except E TransactionStatus))
    (bs : List BlockHash) (e : E) :
    (pollLoop polls = some (PollOutcome.success bs) ↔
      ∃ pre rest, polls = pre ++ Except.ok (TransactionStatus.Finalized bs) :: rest ∧
        ∀ x ∈ pre, continues x = true) ∧
    (pollLoop polls = some (PollOutcome.failure e) ↔
      ∃ pre rest, polls = pre ++ Except.error e :: rest ∧
        ∀ x ∈ pre, continues x = true) :=
  ⟨pollLoop_success_iff polls bs, pollLoop_failure_iff polls e⟩

/-- Witness for C3: on the poll sequence received, committed, finalized,
failed-query, the loop stops with success at the `Finalized` observation,
and on a sequence whose second poll fails it aborts with that error. -/
theorem pollLoop_characterization_witness :
    pollLoop (E := Nat) [Except.ok TransactionStatus.Received,
        Except.ok (TransactionStatus.Committed [[1]]),
        Except.ok (TransactionStatus.Finalized [[2]]),
        Except.error 9] = some (PollOutcome.success [[2]]) ∧
    pollLoop (E := Nat) [Except.ok TransactionStatus.Received, Except.error 7] =
      some (PollOutcome.failure 7) :=
  ⟨(pollLoop_characterization _ [[2]] 9).1.mpr
      ⟨[Except.ok TransactionStatus.Received, Except.ok (TransactionStatus.Committed [[1]])],
       [Except.error 9], rfl, by decide⟩,
   (pollLoop_characterization _ [[2]] 7).2.mpr
      ⟨[Except.ok TransactionStatus.Received], [], rfl, by decide⟩⟩

/-- Claim C4 counterexample: in the account-list stream (the same mapping
is used for module lists and ancestors), an item that fails to decode is
not terminal — here the first item fails domain validation and yields an
`Err`, yet the second underlying item is still decoded and yielded. -/
theorem decodeStream_err_not_terminal :
    ¬ (∀ (items : List (Except Status Generated.AccountAddress)) (i j : Nat),
        i < j →
        (∃ e, (decodeStream accountAddressDecode items)[i]? = some (Except.error e)) →
        (decodeStream accountAddressDecode items)[j]? = none) := by
  intro hclaim
  have h := hclaim [Except.ok { value := [] }, Except.ok { value := List.replicate 32 0 }] 0 1
    (by omega)
    ⟨{ code := StatusCode.invalidArgument, message := invalidAddressMsg }, rfl⟩
  exact Option.noConfusion h

/-- Claim C4 as amended: streamed items are decoded independently — the
output stream has one entry per underlying wire item, and each output
entry is a function of the corresponding wire item alone, so items
yielded before a decode failure are unaffected and items after it are
still decoded and yielded (a decode failure is an `Err` entry, not a
terminal value). -/
theorem decodeStream_itemwise {W A : Type} (decode : W → Except Status A)
    (items : List (Except Status W)) (i : Nat) :
    (decodeStream decode items).length = items.length ∧
    (decodeStream decode items)[i]? =
      Option.map (fun x => Except.bind x decode) items[i]? := by
  unfold decodeStream
  exact ⟨List.length_map _ _, List.getElem?_map _ _ _⟩

/-- Claim C5 counterexample: a finalized-blocks stream item with both the
hash and height sub-fields present, but a hash value that is not 32
bytes, yields a decode error rather than a `FinalizedBlockInfo` built
from those values. -/
theorem finalized_item_present_but_invalid :
    decodeFinalizedBlockItem
        (Except.ok { hash := some { value := [0] }, height := some { value := 5 } }) =
      Except.error { code := StatusCode.invalidArgument, message := invalidHashMsg } := rfl

/-- Claim C5 as amended: the finalized-blocks feed is a bare stream (no
`QueryResponse` envelope, no metadata extraction), each item with both
sub-fields present and a valid 32-byte hash value yields the
`FinalizedBlockInfo` built from those values, an item missing either
sub-field yields a decode error for that single item, and a transport
error is passed through. -/
theorem finalized_blocks_item_decode (gh : Generated.BlockHash)
    (hv : Generated.AbsoluteBlockHeight) (v : Generated.FinalizedBlockInfo)
    (e : Status) (items : List (Except Status Generated.FinalizedBlockInfo)) :
    (gh.value.length = 32 →
      decodeFinalizedBlockItem (Except.ok { hash := some gh, height := some hv }) =
        Except.ok { block_hash := gh.value, height := hv.value }) ∧
    (v.hash = none ∨ v.height = none →
      ∃ err, decodeFinalizedBlockItem (Except.ok v) = Except.error err) ∧
    (decodeFinalizedBlockItem (Except.error e) = Except.error e) ∧
    (get_finalized_blocks items = items.map decodeFinalizedBlockItem) := by
  refine ⟨?_, ?_, rfl, rfl⟩
  · intro hlen
    simp [decodeFinalizedBlockItem, require_owned, blockHashDecode, Except.bind, hlen]
  · intro hcase
    rcases hcase with hn | hn
    · exact ⟨missingFieldStatus,
        by simp [decodeFinalizedBlockItem, hn, require_owned, Except.bind]⟩
    · cases hh : Except.bind (require_owned v.hash) blockHashDecode with
      | error err => exact ⟨err, by simp [decodeFinalizedBlockItem, hh]⟩
      | ok bh =>
        refine ⟨missingFieldStatus, ?_⟩
        simp only [decodeFinalizedBlockItem]
        rw [hh]
        simp [hn, require_owned]

/-- Witness for C5: a concrete valid item decodes to its
`FinalizedBlockInfo`, and a concrete item with a missing sub-field
decodes to an error. -/
theorem finalized_blocks_item_decode_witness :
    (decodeFinalizedBlockItem
        (Except.ok { hash := some { value := List.replicate 32 1 }, height := some { value := 7 } }) =
      Except.ok { block_hash := List.replicate 32 1, height := 7 }) ∧
    (∃ err, decodeFinalizedBlockItem (Except.ok { hash := none, height := none }) =
      Except.error err) :=
  ⟨(finalized_blocks_item_decode { value := List.replicate 32 1 } { value := 7 }
      { hash := none, height := none } missingFieldStatus []).1 (by decide),
   (finalized_blocks_item_decode { value := List.replicate 32 1 } { value := 7 }
      { hash := none, height := none } missingFieldStatus []).2.1 (Or.inl rfl)⟩

/-- Claim C6: for the enveloped operations, the envelope block hash is a
function of the call's own response headers only — two calls with equal
headers produce equal envelope hashes regardless of their streamed items
— and whenever a call succeeds, its envelope hash is exactly what
`extract_metadata` extracts from that same call's headers (so it is
never taken from per-item data nor reused from another call). -/
theorem envelope_hash_from_own_headers {W AccountInfo : Type}
    (decode : W → Except Status AccountInfo)
    (r1 r2 : Response (List (Except Status Generated.AccountAddress)))
    (r3 : Response W)
    (q : QueryResponse (List (Except Status AccountAddress)))
    (q3 : QueryResponse AccountInfo) :
    (r1.metadata = r2.metadata →
      Except.map (fun x => x.block_hash) (get_account_list r1) =
        Except.map (fun x => x.block_hash) (get_account_list r2)) ∧
    (get_account_list r1 = Except.ok q → extract_metadata r1 = Except.ok q.block_hash) ∧
    (get_account_info decode r3 = Except.ok q3 →
      extract_metadata r3 = Except.ok q3.block_hash) := by
  refine ⟨?_, ?_, ?_⟩
  · intro h
    have hmd := extract_metadata_congr r1 r2 h
    unfold get_account_list
    rw [hmd]
    cases extract_metadata r2 <;> rfl
  · intro h
    cases hm : extract_metadata r1 with
    | error e =>
      unfold get_account_list at h
      rw [hm] at h
      exact Except.noConfusion h
    | ok bh =>
      unfold get_account_list at h
      rw [hm] at h
      injection h with h2
      rw [← h2]
  · intro h
    cases hm : extract_metadata r3 with
    | error e =>
      unfold get_account_info at h
      rw [hm] at h
      exact Except.noConfusion h
    | ok bh =>
      unfold get_account_info at h
      rw [hm] at h
      cases hd : decode r3.body with
      | error e2 =>
        rw [hd] at h
        exact Except.noConfusion h
      | ok resp =>
        rw [hd] at h
        injection h with h2
        rw [← h2]

/-- Witness for C6: a concrete response with the all-`0` header; the
hypotheses hold by computation and the envelope hash is the decoded
header. -/
theorem envelope_hash_from_own_headers_witness :
    (Except.map (fun x => x.block_hash)
        (get_account_list { metadata := some (List.replicate 64 48), body := [] }) =
      Except.map (fun x => x.block_hash)
        (get_account_list { metadata := some (List.replicate 64 48), body := [] })) ∧
    extract_metadata ({ metadata := some (List.replicate 64 48), body := [] } :
        Response (List (Except Status Generated.AccountAddress))) =
      Except.ok (List.replicate 32 0) ∧
    extract_metadata ({ metadata := some (List.replicate 64 48), body := () } :
        Response Unit) =
      Except.ok (List.replicate 32 0) :=
  ⟨(envelope_hash_from_own_headers (fun _ : Unit => Except.ok (0 : Nat))
      { metadata := some (List.replicate 64 48), body := [] }
      { metadata := some (List.replicate 64 48), body := [] }
      { metadata := some (List.replicate 64 48), body := () }
      { block_hash := List.replicate 32 0, response := [] }
      { block_hash := List.replicate 32 0, response := 0 }).1 rfl,
   (envelope_hash_from_own_headers (fun _ : Unit => Except.ok (0 : Nat))
      { metadata := some (List.replicate 64 48), body := [] }
      { metadata := some (List.replicate 64 48), body := [] }
      { metadata := some (List.replicate 64 48), body := () }
      { block_hash := List.replicate 32 0, response := [] }
      { block_hash := List.replicate 32 0, response := 0 }).2.1 rfl,
   (envelope_hash_from_own_headers (fun _ : Unit => Except.ok (0 : Nat))
      { metadata := some (List.replicate 64 48), body := [] }
      { metadata := some (List.replicate 64 48), body := [] }
      { metadata := some (List.replicate 64 48), body := () }
      { block_hash := List.replicate 32 0, response := [] }
      { block_hash := List.replicate 32 0, response := 0 }).2.2 rfl⟩

/-- Claim C7: identifier conversion is a (deterministic, effect-free)
function mapping each variant to exactly one wire shape: `Best` and
`LastFinal` to their markers, `Given h` to the given shape carrying
exactly the hash bytes `h` unmodified and unvalidated, and the account
identifier variants to the address, credential-id and index wire
shapes. -/
theorem identifier_conversion_shapes :
    (toBlockHashInput BlockIdentifier.Best =
      { block_hash_input := some Generated.BlockHashInputInner.Best }) ∧
    (toBlockHashInput BlockIdentifier.LastFinal =
      { block_hash_input := some Generated.BlockHashInputInner.LastFinal }) ∧
    (∀ h : BlockHash, toBlockHashInput (BlockIdentifier.Given h) =
      { block_hash_input := some (Generated.BlockHashInputInner.Given { value := h }) }) ∧
    (∀ a : AccountAddress, toAccountIdentifierInput (AccountIdentifier.Address a) =
      Generated.AccountIdentifierInput.Address { value := to_bytes a }) ∧
    (∀ c : List Nat, toAccountIdentifierInput (AccountIdentifier.CredId c) =
      Generated.AccountIdentifierInput.CredId { value := to_bytes c }) ∧
    (∀ i : Nat, toAccountIdentifierInput (AccountIdentifier.Index i) =
      Generated.AccountIdentifierInput.AccountIndex i) :=
  ⟨rfl, rfl, fun _ => rfl, fun _ => rfl, fun _ => rfl, fun _ => rfl⟩

/-- Claim C10: every constructed wire request has its optional wrapper
fields populated — the `BlockHashInput` oneof is always `Some`, the
account-info request has both fields `Some`, and the ancestors request
has its block hash `Some` and its amount equal to the caller's count. -/
theorem requests_fully_populated :
    (∀ bi, (toBlockHashInput bi).block_hash_input.isSome = true) ∧
    (∀ ai bi, (toAccountInfoRequest ai bi).block_hash = some (toBlockHashInput bi) ∧
      (toAccountInfoRequest ai bi).account_identifier = some (toAccountIdentifierInput ai)) ∧
    (∀ bi amount, (toAncestorsRequest bi amount).block_hash = some (toBlockHashInput bi) ∧
      (toAncestorsRequest bi amount).amount = amount) := by
  refine ⟨?_, fun ai bi => ⟨rfl, rfl⟩, fun bi amount => ⟨rfl, rfl⟩⟩
  intro bi
  cases bi <;> rfl

end ConcordiumV2
